import Mathlib

/-!
Verification of the backtesting engine in `ATB/backtesting/backtester.py`.

The engine keeps a cash balance, a dictionary of open positions, a trade log
and an equity curve, iterates over the signal bars (skipping the first 50),
executes buys and sells, and finally computes a performance report.

Modelling choices:
* prices and cash are modelled as rationals (`ℚ`), quantities as integers
  (`ℤ`, the Python `int` type of the `quantity` parameter);
* every call inside a run uses the single symbol `data.index.name`, so the
  per-symbol dictionary `self.positions` is modelled as an optional position
  for that one symbol and the string key is dropped;
* dates (the shared index of `signals` and `data`) are opaque and modelled
  as naturals;
* the per-bar data row and signal row share an index in the source, so they
  are merged into one record `SignalBar` carrying the close price and the
  two boolean signals.
-/

namespace ATB

/-- One bar of the merged `signals`/`data` frames: its date (index entry),
its close price, and the two boolean signal columns. -/
structure SignalBar where
  date : ℕ
  close : ℚ
  buy_signal : Bool
  sell_signal : Bool
  deriving Repr, DecidableEq

/-- An entry of `self.positions`: quantity, cumulative cost and
average price, as stored by `_execute_buy`. -/
structure Position where
  quantity : ℤ
  cost : ℚ
  avg_price : ℚ
  deriving Repr, DecidableEq

/-- A record appended to `self.trades`.  Buys store `cost` and no `pnl` or
`revenue`; sells store `revenue` and `pnl` and no `cost`.  The absent keys of
the Python dict are `none` here; `side` is the literal string stored by the
source. -/
structure Trade where
  date : ℕ
  side : String
  quantity : ℤ
  price : ℚ
  cost : Option ℚ
  revenue : Option ℚ
  pnl : Option ℚ
  deriving Repr, DecidableEq

/-- A record appended to `self.equity_curve` by `_update_equity_curve`. -/
structure EquityPoint where
  date : ℕ
  balance : ℚ
  portfolio_value : ℚ
  equity : ℚ
  deriving Repr, DecidableEq

/-- The mutable state of a `Backtester` during a run. -/
structure BacktestState where
  current_balance : ℚ
  positions : Option Position
  trades : List Trade
  equity_curve : List EquityPoint
  deriving Repr, DecidableEq

/-- State set up by `_initialize_backtest`: the starting cash balance and
empty positions, trades and equity curve. -/
def init_state (initial_balance : ℚ) : BacktestState :=
  { current_balance := initial_balance
    positions := none
    trades := []
    equity_curve := [] }

/-- Embeds `_execute_buy`: cost is `price * quantity`; if it exceeds the
balance the order is skipped; otherwise the balance is reduced, the position
is created (average price = price) or enlarged (average price =
total cost / total quantity), and a BUY trade is appended. -/
def execute_buy (s : BacktestState) (date : ℕ) (price : ℚ) (quantity : ℤ) :
    BacktestState :=
  let cost := price * quantity
  if cost > s.current_balance then s
  else
    let newPositions : Option Position :=
      match s.positions with
      | some pos =>
          let total_quantity := pos.quantity + quantity
          let total_cost := pos.cost + cost
          some { quantity := total_quantity
                 cost := total_cost
                 avg_price := total_cost / (total_quantity : ℚ) }
      | none =>
          some { quantity := quantity, cost := cost, avg_price := price }
    { s with
      current_balance := s.current_balance - cost
      positions := newPositions
      trades := s.trades ++
        [{ date := date, side := "BUY", quantity := quantity, price := price
           cost := some cost, revenue := none, pnl := none }] }

/-- Embeds `_execute_sell`: with no open position the call returns
unchanged; otherwise the whole position is sold at `price`, the realized
P&L is revenue minus the stored cost, the balance grows by the revenue, the
position is deleted and a SELL trade is appended. -/
def execute_sell (s : BacktestState) (date : ℕ) (price : ℚ) : BacktestState :=
  match s.positions with
  | none => s
  | some pos =>
      let quantity := pos.quantity
      let revenue := price * quantity
      let cost := pos.cost
      let pnl := revenue - cost
      { s with
        current_balance := s.current_balance + revenue
        positions := none
        trades := s.trades ++
          [{ date := date, side := "SELL", quantity := quantity, price := price
             cost := none, revenue := some revenue, pnl := some pnl }] }

/-- Embeds `_update_equity_curve`: the portfolio value is the cash balance
plus quantity times the current close for the open position (the source sums
`pos.quantity * current_price` over the positions dict), and one equity
point is appended. -/
def update_equity_curve (s : BacktestState) (date : ℕ) (current_price : ℚ) :
    BacktestState :=
  let portfolio_value := s.current_balance +
    (match s.positions with
     | some pos => (pos.quantity : ℚ) * current_price
     | none => 0)
  { s with
    equity_curve := s.equity_curve ++
      [{ date := date, balance := s.current_balance
         portfolio_value := portfolio_value, equity := portfolio_value }] }

/-- The body of the loop of `_execute_trades` for one processed bar: the buy
check (fixed quantity 100) runs first, the sell check second, and the equity
curve is updated last. -/
def process_bar (s : BacktestState) (bar : SignalBar) : BacktestState :=
  let s1 := if bar.buy_signal then execute_buy s bar.date bar.close 100 else s
  let s2 := if bar.sell_signal then execute_sell s1 bar.date bar.close else s1
  update_equity_curve s2 bar.date bar.close

/-- The loop of `_execute_trades`, carrying the running index `i`: bars with
`i < 50` are skipped, the rest are processed by `process_bar`. -/
def run_bars (s : BacktestState) (i : ℕ) : List SignalBar → BacktestState
  | [] => s
  | bar :: rest =>
      run_bars (if i < 50 then s else process_bar s bar) (i + 1) rest

/-- Embeds `_execute_trades`: run the indexed loop from `i = 0`. -/
def execute_trades (s : BacktestState) (bars : List SignalBar) :
    BacktestState :=
  run_bars s 0 bars

/-!
Performance evaluation (`_calculate_performance`).

The source works on pandas Series of floats.  The per-bar returns
(`pct_change`) leave the first entry NaN; `std()` skips NaN entries and
uses the sample (ddof = 1) variance, itself NaN when fewer than two return
values exist.  Here the NaN return is simply not produced (the list of
returns has one entry fewer than the curve) and a variance over fewer than
two values is 0, which keeps the `volatility > 0` guard on the same branch
the float code takes (NaN comparisons are false).  `volatility` and the
Sharpe ratio involve a square root, irrational on rational data, so the
report stores the square of the volatility and the Sharpe guard of line 210
is embedded by `sharpe_ratio` taking the already-computed volatility. -/

/-- Per-bar percentage change of a series: `(x_i − x_(i−1)) / x_(i−1)`.
Embeds `equity_df.pct_change()` without the leading NaN entry. -/
def pct_change (xs : List ℚ) : List ℚ :=
  List.zipWith (fun prev cur => (cur - prev) / prev) xs xs.tail

/-- Arithmetic mean of a list of rationals (0 for the empty list, from the
division-by-zero convention). -/
def mean (xs : List ℚ) : ℚ :=
  xs.sum / (xs.length : ℚ)

/-- Sample variance (ddof = 1), the square of pandas `std()`; pandas yields
NaN on fewer than two values, modelled as 0 (see the section comment). -/
def sample_variance (xs : List ℚ) : ℚ :=
  if 2 ≤ xs.length then
    ((xs.map (fun x => (x - mean xs) ^ 2)).sum) / ((xs.length : ℚ) - 1)
  else 0

/-- Embeds line 210, `annualized_return / volatility if volatility > 0
else 0`, as a function of the already-computed volatility. -/
def sharpe_ratio (annualized_return volatility : ℚ) : ℚ :=
  if volatility > 0 then annualized_return / volatility else 0

/-- Running maximum with accumulator `m`, the tail of a cumulative max. -/
def running_max_from (m : ℚ) : List ℚ → List ℚ
  | [] => []
  | x :: xs => max m x :: running_max_from (max m x) xs

/-- Embeds `equity_df.cummax()`: the running peak of the series. -/
def running_max : List ℚ → List ℚ
  | [] => []
  | x :: xs => x :: running_max_from x xs

/-- Embeds the `drawdown` column: `(equity − cummax) / cummax`, pointwise. -/
def drawdowns (equities : List ℚ) : List ℚ :=
  List.zipWith (fun e m => (e - m) / m) equities (running_max equities)

/-- Minimum of a list of rationals (0 for the empty list, which the source
never reaches because of the empty-curve guard). -/
def list_min : List ℚ → ℚ
  | [] => 0
  | [x] => x
  | x :: y :: xs => min x (list_min (y :: xs))

/-- Embeds `equity_df.drawdown.min()`: the most negative drawdown. -/
def max_drawdown (equities : List ℚ) : ℚ :=
  list_min (drawdowns equities)

/-- Embeds the pandas test `'pnl' in trades_df.columns`: at least one
recorded trade dict carries the `pnl` key. -/
def has_pnl_column (trades : List Trade) : Bool :=
  trades.any (fun t => t.pnl.isSome)

/-- Embeds `len(winning_trades)`: rows with `pnl > 0` when the `pnl` column
exists (a buy's missing `pnl` is NaN there, and `NaN > 0` is false), and an
empty frame otherwise. -/
def winning_count (trades : List Trade) : ℕ :=
  if has_pnl_column trades then
    (trades.filter (fun t =>
      match t.pnl with
      | some p => decide (0 < p)
      | none => false)).length
  else 0

/-- Embeds the win-rate computation of lines 218-223: 0 for an empty trade
list, else winning rows over all rows (the inner `if len(trades_df) > 0`
guard of the source is kept). -/
def win_rate (trades : List Trade) : ℚ :=
  if trades.isEmpty then 0
  else if 0 < trades.length then
    (winning_count trades : ℚ) / (trades.length : ℚ)
  else 0

/-- The report returned by `_calculate_performance` on a non-empty curve.
`volatility_sq` is the square of the source's `volatility`
(`returns.std() * sqrt(252)`), kept squared to stay rational; the source's
`sharpe_ratio` entry is `sharpe_ratio annualized_return √volatility_sq`.
The source also echoes the equity curve and trade list in the dict; those
are available unchanged in the state, so the record keeps the computed
statistics. -/
structure PerformanceReport where
  total_return : ℚ
  annualized_return : ℚ
  volatility_sq : ℚ
  max_drawdown : ℚ
  win_rate : ℚ
  total_trades : ℕ
  final_balance : ℚ
  deriving Repr, DecidableEq

/-- Embeds `_calculate_performance`: an empty equity curve yields the
labeled error result; otherwise the statistics are computed from the
equity series and the trade list. -/
def calculate_performance (initial_balance : ℚ) (s : BacktestState) :
    Except String PerformanceReport :=
  if s.equity_curve.isEmpty then Except.error "No equity curve data"
  else
    let equities := s.equity_curve.map (fun pt => pt.equity)
    let final_equity := equities.getLastD 0
    let total_return := (final_equity - initial_balance) / initial_balance
    let annualized_return := total_return * (252 / (equities.length : ℚ))
    let returns := pct_change equities
    let volatility_sq := 252 * sample_variance returns
    Except.ok
      { total_return := total_return
        annualized_return := annualized_return
        volatility_sq := volatility_sq
        max_drawdown := max_drawdown equities
        win_rate := win_rate s.trades
        total_trades := s.trades.length
        final_balance := final_equity }

/-! Helper lemmas about the single-bar operations. -/

/-- Buying never touches the equity curve. -/
theorem execute_buy_equity_curve (s : BacktestState) (date : ℕ) (price : ℚ)
    (quantity : ℤ) :
    (execute_buy s date price quantity).equity_curve = s.equity_curve := by
  unfold execute_buy
  by_cases h : price * (quantity : ℚ) > s.current_balance
  · simp [h]
  · simp [h]

/-- Selling never touches the equity curve. -/
theorem execute_sell_equity_curve (s : BacktestState) (date : ℕ) (price : ℚ) :
    (execute_sell s date price).equity_curve = s.equity_curve := by
  unfold execute_sell
  cases s.positions
  · rfl
  · rfl

/-- The equity update only appends one point and its date is the bar's. -/
theorem update_equity_curve_map_date (s : BacktestState) (date : ℕ)
    (price : ℚ) :
    ((update_equity_curve s date price).equity_curve).map
        (fun pt => pt.date)
      = s.equity_curve.map (fun pt => pt.date) ++ [date] := by
  simp [update_equity_curve]

/-- The equity update changes no other component of the state. -/
theorem update_equity_curve_rest (s : BacktestState) (date : ℕ) (price : ℚ) :
    (update_equity_curve s date price).current_balance = s.current_balance ∧
    (update_equity_curve s date price).positions = s.positions ∧
    (update_equity_curve s date price).trades = s.trades := by
  exact ⟨rfl, rfl, rfl⟩

/-- Processing a bar appends exactly one equity point, dated at the bar. -/
theorem process_bar_equity_map_date (s : BacktestState) (bar : SignalBar) :
    ((process_bar s bar).equity_curve).map (fun pt => pt.date)
      = s.equity_curve.map (fun pt => pt.date) ++ [bar.date] := by
  unfold process_bar
  rw [update_equity_curve_map_date]
  cases hb : bar.buy_signal <;> cases hs : bar.sell_signal <;>
    simp [execute_buy_equity_curve, execute_sell_equity_curve]

/-- Any trade recorded by a buy is either old or dated at the call. -/
theorem execute_buy_trades_mem (s : BacktestState) (date : ℕ) (price : ℚ)
    (quantity : ℤ) (t : Trade)
    (ht : t ∈ (execute_buy s date price quantity).trades) :
    t ∈ s.trades ∨ t.date = date := by
  unfold execute_buy at ht
  by_cases h : price * (quantity : ℚ) > s.current_balance
  · rw [if_pos h] at ht
    exact Or.inl ht
  · rw [if_neg h] at ht
    rcases List.mem_append.mp ht with hm | hm
    · exact Or.inl hm
    · simp only [List.mem_singleton] at hm
      subst hm
      exact Or.inr rfl

/-- Any trade recorded by a sell is either old or dated at the call. -/
theorem execute_sell_trades_mem (s : BacktestState) (date : ℕ) (price : ℚ)
    (t : Trade) (ht : t ∈ (execute_sell s date price).trades) :
    t ∈ s.trades ∨ t.date = date := by
  unfold execute_sell at ht
  cases hp : s.positions with
  | none => rw [hp] at ht; exact Or.inl ht
  | some pos =>
      rw [hp] at ht
      rcases List.mem_append.mp ht with h | h
      · exact Or.inl h
      · simp only [List.mem_singleton] at h
        subst h
        exact Or.inr rfl

/-- Any trade present after processing a bar is old or dated at that bar. -/
theorem process_bar_trades_mem (s : BacktestState) (bar : SignalBar)
    (t : Trade) (ht : t ∈ (process_bar s bar).trades) :
    t ∈ s.trades ∨ t.date = bar.date := by
  unfold process_bar at ht
  have hupd :
      ∀ u : BacktestState, (update_equity_curve u bar.date bar.close).trades
        = u.trades := fun u => rfl
  rw [hupd] at ht
  cases hs : bar.sell_signal <;> rw [hs] at ht <;>
    cases hb : bar.buy_signal <;> rw [hb] at ht <;>
      simp only [Bool.false_eq_true, if_true, if_false, ite_true,
        ite_false] at ht
  · exact Or.inl ht
  · exact execute_buy_trades_mem s bar.date bar.close 100 t ht
  · exact execute_sell_trades_mem s bar.date bar.close t ht
  · rcases execute_sell_trades_mem _ bar.date bar.close t ht with h | h
    · exact execute_buy_trades_mem s bar.date bar.close 100 t h
    · exact Or.inr h

/-- The indexed loop started at `i` is a fold over the bars that survive
dropping the first `50 − i`. -/
theorem run_bars_eq_foldl :
    ∀ (bars : List SignalBar) (s : BacktestState) (i : ℕ),
      run_bars s i bars = List.foldl process_bar s (bars.drop (50 - i)) := by
  intro bars
  induction bars with
  | nil => intro s i; simp [run_bars]
  | cons bar rest ih =>
      intro s i
      by_cases h : i < 50
      · have h50 : 50 - i = (50 - (i + 1)) + 1 := by omega
        rw [run_bars, if_pos h, ih s (i + 1), h50, List.drop_succ_cons]
      · have h50 : 50 - i = 0 := by omega
        have h51 : 50 - (i + 1) = 0 := by omega
        rw [run_bars, if_neg h, ih (process_bar s bar) (i + 1), h50, h51]
        rfl

/-- Folding the per-bar step appends one equity point per bar, in order. -/
theorem foldl_process_bar_equity_map_date :
    ∀ (l : List SignalBar) (s : BacktestState),
      ((List.foldl process_bar s l).equity_curve).map (fun pt => pt.date)
        = s.equity_curve.map (fun pt => pt.date)
            ++ l.map (fun bar => bar.date) := by
  intro l
  induction l with
  | nil => intro s; simp
  | cons bar rest ih =>
      intro s
      rw [List.foldl_cons, ih (process_bar s bar),
        process_bar_equity_map_date]
      simp

/-- Folding the per-bar step only adds trades dated at one of the bars. -/
theorem foldl_process_bar_trades_mem :
    ∀ (l : List SignalBar) (s : BacktestState) (t : Trade),
      t ∈ (List.foldl process_bar s l).trades →
        t ∈ s.trades ∨ t.date ∈ l.map (fun bar => bar.date) := by
  intro l
  induction l with
  | nil => intro s t ht; exact Or.inl ht
  | cons bar rest ih =>
      intro s t ht
      rw [List.foldl_cons] at ht
      rcases ih (process_bar s bar) t ht with h | h
      · rcases process_bar_trades_mem s bar t h with h2 | h2
        · exact Or.inl h2
        · exact Or.inr (by simp [h2])
      · exact Or.inr (by simp [h])

/-! Claim theorems. -/

/-- C8: the executor unconditionally skips the first 50 bars (no equity
point or trade comes from them) and appends exactly one equity point, in
chronological order, for each remaining bar, so the curve has
`bars.length − 50` points (truncated subtraction, i.e. `max 0 (n − 50)`). -/
theorem warmup_skip_equity_cadence (initial_balance : ℚ)
    (bars : List SignalBar) :
    ((execute_trades (init_state initial_balance) bars).equity_curve).map
        (fun pt => pt.date)
      = (bars.drop 50).map (fun bar => bar.date) ∧
    (execute_trades (init_state initial_balance) bars).equity_curve.length
      = bars.length - 50 ∧
    ∀ t ∈ (execute_trades (init_state initial_balance) bars).trades,
      t.date ∈ (bars.drop 50).map (fun bar => bar.date) := by
  have hmap :
      ((execute_trades (init_state initial_balance) bars).equity_curve).map
          (fun pt => pt.date)
        = (bars.drop 50).map (fun bar => bar.date) := by
    rw [execute_trades, run_bars_eq_foldl bars (init_state initial_balance) 0,
      Nat.sub_zero]
    simpa [init_state] using
      foldl_process_bar_equity_map_date (bars.drop 50)
        (init_state initial_balance)
  refine ⟨hmap, ?_, ?_⟩
  · have hlen := congrArg List.length hmap
    simpa [List.length_map, List.length_drop] using hlen
  · intro t ht
    rw [execute_trades, run_bars_eq_foldl bars (init_state initial_balance) 0,
      Nat.sub_zero] at ht
    rcases foldl_process_bar_trades_mem (bars.drop 50)
        (init_state initial_balance) t ht with h | h
    · simp [init_state] at h
    · exact h

/-- Sixty flat bars at close 100 with a single buy signal on bar 51 (and no
sell signals anywhere), as in the end-to-end scenario of the spec. -/
def flat_series_bars : List SignalBar :=
  (List.range 60).map
    (fun j =>
      { date := j, close := 100, buy_signal := j == 51, sell_signal := false })

/-- C1: running the executor on 60 flat bars (close 100) with one buy signal
on bar 51, fixed quantity 100 and starting cash 100000 ends with a position
of 100 units at average price 100 (cost basis 10000), cash 90000, and every
recorded equity point (bars 50-59, hence in particular from bar 51 onward)
has portfolio equity 100000. -/
theorem flat_series_end_to_end :
    (execute_trades (init_state 100000) flat_series_bars).positions
        = some { quantity := 100, cost := 10000, avg_price := 100 } ∧
    (execute_trades (init_state 100000) flat_series_bars).current_balance
        = 90000 ∧
    (execute_trades (init_state 100000) flat_series_bars).equity_curve.length
        = 10 ∧
    ∀ pt ∈ (execute_trades (init_state 100000) flat_series_bars).equity_curve,
      pt.equity = 100000 := by
  norm_num [flat_series_bars, List.range_succ, execute_trades, run_bars,
    process_bar, execute_buy, execute_sell, update_equity_curve, init_state]

/-- C2: a sell with an open position liquidates the whole quantity at the
close, records a SELL trade whose realized P&L is revenue minus the stored
cost basis, raises the cash balance by exactly `price × quantity` and
removes the position; a sell without a position changes nothing. -/
theorem sell_rule_spec (s : BacktestState) (date : ℕ) (price : ℚ) :
    (∀ pos : Position, s.positions = some pos →
      (execute_sell s date price).current_balance
          = s.current_balance + price * (pos.quantity : ℚ) ∧
      (execute_sell s date price).positions = none ∧
      (execute_sell s date price).trades
          = s.trades ++
            [{ date := date, side := "SELL", quantity := pos.quantity
               price := price, cost := none
               revenue := some (price * (pos.quantity : ℚ))
               pnl := some (price * (pos.quantity : ℚ) - pos.cost) }]) ∧
    (s.positions = none → execute_sell s date price = s) := by
  constructor
  · intro pos hp
    refine ⟨?_, ?_, ?_⟩ <;> simp [execute_sell, hp]
  · intro hp
    simp [execute_sell, hp]

/-- C3: a buy whose cost exceeds the cash balance is a no-op on the state,
and a processed bar carrying only such a buy signal leaves cash, position
and trade list unchanged while still appending its one equity point. -/
theorem insufficient_funds_skip (s : BacktestState) (bar : SignalBar)
    (date : ℕ) (price : ℚ) (quantity : ℤ)
    (hbuy : bar.buy_signal = true) (hsell : bar.sell_signal = false)
    (hq : price * (quantity : ℚ) > s.current_balance)
    (hbar : bar.close * 100 > s.current_balance) :
    execute_buy s date price quantity = s ∧
    process_bar s bar = update_equity_curve s bar.date bar.close ∧
    (process_bar s bar).current_balance = s.current_balance ∧
    (process_bar s bar).positions = s.positions ∧
    (process_bar s bar).trades = s.trades ∧
    (process_bar s bar).equity_curve.length = s.equity_curve.length + 1 := by
  have h1 : execute_buy s date price quantity = s := by
    unfold execute_buy
    rw [if_pos hq]
  have hb : execute_buy s bar.date bar.close 100 = s := by
    unfold execute_buy
    rw [if_pos (by push_cast; exact hbar)]
  have h2 : process_bar s bar = update_equity_curve s bar.date bar.close := by
    unfold process_bar
    rw [hbuy, hsell]
    simp [hb]
  refine ⟨h1, h2, ?_, ?_, ?_, ?_⟩ <;> rw [h2]
  · rfl
  · rfl
  · rfl
  · simp [update_equity_curve]

/-- C7: performance evaluation of an empty equity curve is the labeled
failure `"No equity curve data"`, and of a non-empty curve is a computed
report, never an exception or a default report. -/
theorem empty_curve_labeled_error (initial_balance : ℚ)
    (s : BacktestState) :
    (s.equity_curve = [] →
      calculate_performance initial_balance s
        = Except.error "No equity curve data") ∧
    (s.equity_curve ≠ [] →
      ∃ r, calculate_performance initial_balance s = Except.ok r) := by
  constructor
  · intro h
    simp [calculate_performance, h]
  · intro h
    unfold calculate_performance
    rw [if_neg (by simpa [List.isEmpty_iff] using h)]
    exact ⟨_, rfl⟩

/-- C9: when a bar carries both signals the buy check runs first and the
sell check second, so the bar is processed exactly as the buy step followed
by the sell step (then the equity update); in particular a position present
after the buy step is gone after the bar. -/
theorem simultaneous_buy_sell_order (s : BacktestState) (bar : SignalBar)
    (hbuy : bar.buy_signal = true) (hsell : bar.sell_signal = true) :
    process_bar s bar
        = update_equity_curve
            (execute_sell (execute_buy s bar.date bar.close 100)
              bar.date bar.close)
            bar.date bar.close ∧
    ((execute_buy s bar.date bar.close 100).positions.isSome →
      (process_bar s bar).positions = none) := by
  have h1 : process_bar s bar
      = update_equity_curve
          (execute_sell (execute_buy s bar.date bar.close 100)
            bar.date bar.close)
          bar.date bar.close := by
    unfold process_bar
    rw [hbuy, hsell]
    simp
  refine ⟨h1, ?_⟩
  intro hsome
  rw [h1]
  rcases Option.isSome_iff_exists.mp hsome with ⟨pos, hp⟩
  show (execute_sell (execute_buy s bar.date bar.close 100)
    bar.date bar.close).positions = none
  simp [execute_sell, hp]

/-- The sample variance is never negative. -/
theorem sample_variance_nonneg (xs : List ℚ) : 0 ≤ sample_variance xs := by
  unfold sample_variance
  split
  · apply div_nonneg
    · apply List.sum_nonneg
      intro y hy
      rcases List.mem_map.mp hy with ⟨x, _, rfl⟩
      positivity
    · have h2 : (2 : ℚ) ≤ (xs.length : ℚ) := by exact_mod_cast ‹2 ≤ xs.length›
      linarith
  · exact le_refl 0

/-- C4: for a report computed from a non-empty curve, the squared
volatility is non-negative (so the source's volatility, its square root, is
a real number, never NaN), and the Sharpe guard yields annualized return
over volatility when the volatility is positive and exactly 0 when the
volatility is 0. -/
theorem sharpe_ratio_guard (initial_balance : ℚ) (s : BacktestState)
    (r : PerformanceReport) (volatility : ℚ)
    (hr : calculate_performance initial_balance s = Except.ok r)
    (hsq : volatility * volatility = r.volatility_sq)
    (hnn : 0 ≤ volatility) :
    0 ≤ r.volatility_sq ∧
    (0 < volatility →
      sharpe_ratio r.annualized_return volatility
        = r.annualized_return / volatility) ∧
    (volatility = 0 → sharpe_ratio r.annualized_return volatility = 0) := by
  refine ⟨?_, ?_, ?_⟩
  · unfold calculate_performance at hr
    by_cases h : s.equity_curve.isEmpty
    · rw [if_pos h] at hr
      exact absurd hr (by simp)
    · rw [if_neg h] at hr
      simp only [Except.ok.injEq] at hr
      rw [← hr]
      exact mul_nonneg (by norm_num) (sample_variance_nonneg _)
  · intro h
    unfold sharpe_ratio
    rw [if_pos h]
  · intro h
    unfold sharpe_ratio
    rw [if_neg (by rw [h]; exact lt_irrefl 0)]

/-- C5: when at least one sell was recorded, the win rate divides the
winning sells (positive realized P&L) by the whole trade list, buys
included; when the trade list is non-empty but holds no sell, no trade
carries a P&L, so nothing counts as a winner and the reported win rate
is 0.  The hypothesis `hwf` states the invariant of the engine that the
trades carrying the `pnl` key are exactly the SELL trades. -/
theorem win_rate_denominator_policy (trades : List Trade)
    (hwf : ∀ t ∈ trades, t.side = "SELL" ↔ t.pnl.isSome = true) :
    ((∃ t ∈ trades, t.side = "SELL") →
      win_rate trades
        = ((trades.filter (fun t =>
              t.side == "SELL" &&
                match t.pnl with
                | some p => decide (0 < p)
                | none => false)).length : ℚ) / (trades.length : ℚ)) ∧
    (trades ≠ [] → (∀ t ∈ trades, ¬ t.side = "SELL") →
      win_rate trades = 0) := by
  constructor
  · rintro ⟨t0, ht0, hside⟩
    have hnonempty : trades ≠ [] := by
      intro h
      rw [h] at ht0
      exact absurd ht0 (List.not_mem_nil t0)
    have hcol : has_pnl_column trades = true := by
      unfold has_pnl_column
      rw [List.any_eq_true]
      exact ⟨t0, ht0, (hwf t0 ht0).mp hside⟩
    have hfilter :
        trades.filter (fun t =>
            match t.pnl with
            | some p => decide (0 < p)
            | none => false)
          = trades.filter (fun t =>
              t.side == "SELL" &&
                match t.pnl with
                | some p => decide (0 < p)
                | none => false) := by
      apply List.filter_congr
      intro t ht
      cases hp : t.pnl with
      | none => simp
      | some p =>
          have hsell : t.side = "SELL" := (hwf t ht).mpr (by rw [hp]; rfl)
          simp [hsell]
    have hlen : 0 < trades.length := List.length_pos.mpr hnonempty
    unfold win_rate winning_count
    rw [hcol, hfilter]
    simp [List.isEmpty_iff, hnonempty, hlen]
  · intro hne hnosell
    have hcol : has_pnl_column trades = false := by
      unfold has_pnl_column
      rw [List.any_eq_false]
      intro t ht
      intro habs
      exact hnosell t ht ((hwf t ht).mpr habs)
    unfold win_rate winning_count
    rw [hcol]
    simp [List.isEmpty_iff, hne]

/-- Every entry of the running maximum dominates its seed. -/
theorem running_max_from_ge_seed (xs : List ℚ) :
    ∀ (m : ℚ) (y : ℚ), y ∈ running_max_from m xs → m ≤ y := by
  induction xs with
  | nil => intro m y hy; exact absurd hy (List.not_mem_nil y)
  | cons x xs ih =>
      intro m y hy
      rw [running_max_from] at hy
      rcases List.mem_cons.mp hy with h | h
      · rw [h]; exact le_max_left m x
      · exact le_trans (le_max_left m x) (ih (max m x) y h)

/-- Each drawdown of a series of non-negative equities against the running
maximum seeded by a non-negative peak is non-positive. -/
theorem drawdowns_from_nonpos (xs : List ℚ) :
    ∀ m : ℚ, 0 ≤ m → (∀ e ∈ xs, 0 ≤ e) →
      ∀ d ∈ List.zipWith (fun e mx => (e - mx) / mx) xs
          (running_max_from m xs), d ≤ 0 := by
  induction xs with
  | nil => intro m _ _ d hd; exact absurd hd (List.not_mem_nil d)
  | cons x xs ih =>
      intro m hm hxs d hd
      rw [running_max_from, List.zipWith_cons_cons] at hd
      rcases List.mem_cons.mp hd with h | h
      · rw [h]
        apply div_nonpos_iff.mpr
        refine Or.inr ⟨?_, ?_⟩
        · exact sub_nonpos.mpr (le_max_right m x)
        · exact le_trans hm (le_max_left m x)
      · exact ih (max m x) (le_trans hm (le_max_left m x))
          (fun e he => hxs e (List.mem_cons_of_mem x he)) d h

/-- The minimum of a non-empty list is one of its entries. -/
theorem list_min_mem : ∀ l : List ℚ, l ≠ [] → list_min l ∈ l := by
  intro l
  induction l with
  | nil => intro h; exact absurd rfl h
  | cons x xs ih =>
      intro _
      cases xs with
      | nil => rw [list_min]; exact List.mem_singleton.mpr rfl
      | cons y ys =>
          rw [list_min]
          rcases min_choice x (list_min (y :: ys)) with h | h
          · rw [h]; exact List.mem_cons_self x (y :: ys)
          · rw [h]
            exact List.mem_cons_of_mem x (ih (by simp))

/-- Zipping a list with itself applies the function diagonally. -/
theorem zipWith_self_diag (f : ℚ → ℚ → ℚ) :
    ∀ l : List ℚ, List.zipWith f l l = l.map (fun e => f e e) := by
  intro l
  induction l with
  | nil => rfl
  | cons x xs ih => rw [List.zipWith_cons_cons, List.map_cons, ih]

/-- On a chain of non-decreasing values the running maximum is the list
itself. -/
theorem running_max_from_of_chain :
    ∀ (xs : List ℚ) (m : ℚ), List.Chain (fun a b => a ≤ b) m xs →
      running_max_from m xs = xs := by
  intro xs
  induction xs with
  | nil => intro m _; rfl
  | cons x xs ih =>
      intro m hc
      rcases List.chain_cons.mp hc with ⟨hmx, hxs⟩
      rw [running_max_from, max_eq_right hmx, ih x hxs]

/-- C6: over a non-empty curve of non-negative equities the reported
maximum drawdown (the minimum of `(equity − running peak) / running peak`)
is never positive, and it is exactly 0 whenever the equities are
monotonically non-decreasing. -/
theorem max_drawdown_nonpos (equities : List ℚ) (hne : equities ≠ [])
    (hnn : ∀ e ∈ equities, 0 ≤ e) :
    max_drawdown equities ≤ 0 ∧
    (List.Chain' (fun a b => a ≤ b) equities →
      max_drawdown equities = 0) := by
  obtain ⟨x, xs, rfl⟩ := List.exists_cons_of_ne_nil hne
  have hx : 0 ≤ x := hnn x (List.mem_cons_self x xs)
  have hdd_ne : drawdowns (x :: xs) ≠ [] := by
    unfold drawdowns running_max
    rw [List.zipWith_cons_cons]
    exact List.cons_ne_nil _ _
  have hmem := list_min_mem (drawdowns (x :: xs)) hdd_ne
  constructor
  · have hdd : ∀ d ∈ drawdowns (x :: xs), d ≤ 0 := by
      intro d hd
      unfold drawdowns running_max at hd
      rw [List.zipWith_cons_cons] at hd
      rcases List.mem_cons.mp hd with h | h
      · rw [h, sub_self, zero_div]
      · exact drawdowns_from_nonpos xs x hx
          (fun e he => hnn e (List.mem_cons_of_mem x he)) d h
    exact hdd _ hmem
  · intro hchain
    have hc : List.Chain (fun a b => a ≤ b) x xs := hchain
    have hdiag : drawdowns (x :: xs)
        = (x :: xs).map (fun e => (e - e) / e) := by
      unfold drawdowns
      rw [show running_max (x :: xs) = x :: running_max_from x xs from rfl,
        running_max_from_of_chain xs x hc]
      exact zipWith_self_diag _ (x :: xs)
    have hzero : ∀ d ∈ drawdowns (x :: xs), d = 0 := by
      intro d hd
      rw [hdiag] at hd
      rcases List.mem_map.mp hd with ⟨e, _, rfl⟩
      rw [sub_self, zero_div]
    exact hzero _ hmem

/-! Invariant lemmas for C10: cash stays non-negative, position quantities
stay non-negative. -/

/-- The equity update never changes the balance. -/
theorem update_equity_curve_balance (s : BacktestState) (date : ℕ)
    (price : ℚ) :
    (update_equity_curve s date price).current_balance
      = s.current_balance := rfl

/-- The equity update never changes the position. -/
theorem update_equity_curve_positions (s : BacktestState) (date : ℕ)
    (price : ℚ) :
    (update_equity_curve s date price).positions = s.positions := rfl

/-- A buy, affordable or not, keeps the balance non-negative: an
unaffordable one is skipped and an affordable one subtracts at most the
whole balance. -/
theorem execute_buy_balance_nonneg (s : BacktestState) (date : ℕ)
    (price : ℚ) (quantity : ℤ) (h : 0 ≤ s.current_balance) :
    0 ≤ (execute_buy s date price quantity).current_balance := by
  unfold execute_buy
  by_cases hc : price * (quantity : ℚ) > s.current_balance
  · rw [if_pos hc]
    exact h
  · rw [if_neg hc]
    show 0 ≤ s.current_balance - price * (quantity : ℚ)
    push_neg at hc
    linarith

/-- A buy of a non-negative quantity keeps position quantities
non-negative. -/
theorem execute_buy_quantity_nonneg (s : BacktestState) (date : ℕ)
    (price : ℚ) (quantity : ℤ) (hq : 0 ≤ quantity)
    (hinv : ∀ pos : Position, s.positions = some pos → 0 ≤ pos.quantity) :
    ∀ pos : Position,
      (execute_buy s date price quantity).positions = some pos →
        0 ≤ pos.quantity := by
  unfold execute_buy
  by_cases hc : price * (quantity : ℚ) > s.current_balance
  · rw [if_pos hc]
    exact hinv
  · rw [if_neg hc]
    intro pos hp
    cases hsp : s.positions with
    | none =>
        rw [hsp] at hp
        simp only [Option.some.injEq] at hp
        rw [← hp]
        exact hq
    | some old =>
        rw [hsp] at hp
        simp only [Option.some.injEq] at hp
        rw [← hp]
        exact add_nonneg (hinv old hsp) hq

/-- A sell at a non-negative price keeps the balance non-negative when the
held quantity is non-negative. -/
theorem execute_sell_balance_nonneg (s : BacktestState) (date : ℕ)
    (price : ℚ) (hb : 0 ≤ s.current_balance) (hp : 0 ≤ price)
    (hinv : ∀ pos : Position, s.positions = some pos → 0 ≤ pos.quantity) :
    0 ≤ (execute_sell s date price).current_balance := by
  unfold execute_sell
  cases hsp : s.positions with
  | none => exact hb
  | some pos =>
      show 0 ≤ s.current_balance + price * (pos.quantity : ℚ)
      have hq : (0 : ℚ) ≤ (pos.quantity : ℚ) :=
        Int.cast_nonneg.mpr (hinv pos hsp)
      have := mul_nonneg hp hq
      linarith

/-- A sell leaves no position, hence trivially preserves the quantity
invariant. -/
theorem execute_sell_quantity_nonneg (s : BacktestState) (date : ℕ)
    (price : ℚ)
    (hinv : ∀ pos : Position, s.positions = some pos → 0 ≤ pos.quantity) :
    ∀ pos : Position, (execute_sell s date price).positions = some pos →
      0 ≤ pos.quantity := by
  unfold execute_sell
  cases hsp : s.positions with
  | none => exact hinv
  | some old =>
      intro pos hp
      simp only at hp
      exact absurd hp (by simp)

/-- Processing one bar with a non-negative close preserves both parts of
the invariant. -/
theorem process_bar_invariant (s : BacktestState) (bar : SignalBar)
    (hb : 0 ≤ s.current_balance)
    (hinv : ∀ pos : Position, s.positions = some pos → 0 ≤ pos.quantity)
    (hc : 0 ≤ bar.close) :
    0 ≤ (process_bar s bar).current_balance ∧
    ∀ pos : Position, (process_bar s bar).positions = some pos →
      0 ≤ pos.quantity := by
  unfold process_bar
  have hb1 : 0 ≤ (if bar.buy_signal then
      execute_buy s bar.date bar.close 100 else s).current_balance := by
    cases hbs : bar.buy_signal
    · simpa using hb
    · simpa using execute_buy_balance_nonneg s bar.date bar.close 100 hb
  have hinv1 : ∀ pos : Position,
      (if bar.buy_signal then
        execute_buy s bar.date bar.close 100 else s).positions = some pos →
        0 ≤ pos.quantity := by
    cases hbs : bar.buy_signal
    · simpa using hinv
    · simpa using
        execute_buy_quantity_nonneg s bar.date bar.close 100
          (by norm_num) hinv
  have hb2 : 0 ≤ (if bar.sell_signal then
      execute_sell
        (if bar.buy_signal then execute_buy s bar.date bar.close 100 else s)
        bar.date bar.close
      else
        if bar.buy_signal then execute_buy s bar.date bar.close 100
        else s).current_balance := by
    cases hss : bar.sell_signal
    · simpa using hb1
    · simpa using
        execute_sell_balance_nonneg _ bar.date bar.close hb1 hc hinv1
  have hinv2 : ∀ pos : Position,
      (if bar.sell_signal then
        execute_sell
          (if bar.buy_signal then execute_buy s bar.date bar.close 100
            else s)
          bar.date bar.close
      else
        if bar.buy_signal then execute_buy s bar.date bar.close 100
        else s).positions = some pos → 0 ≤ pos.quantity := by
    cases hss : bar.sell_signal
    · simpa using hinv1
    · simpa using
        execute_sell_quantity_nonneg _ bar.date bar.close hinv1
  exact ⟨hb2, hinv2⟩

/-- Folding the per-bar step over bars with non-negative closes preserves
the invariant. -/
theorem foldl_process_bar_invariant :
    ∀ (l : List SignalBar) (s : BacktestState),
      0 ≤ s.current_balance →
      (∀ pos : Position, s.positions = some pos → 0 ≤ pos.quantity) →
      (∀ bar ∈ l, 0 ≤ bar.close) →
      0 ≤ (List.foldl process_bar s l).current_balance ∧
      ∀ pos : Position,
        (List.foldl process_bar s l).positions = some pos →
          0 ≤ pos.quantity := by
  intro l
  induction l with
  | nil => intro s hb hinv _; exact ⟨hb, hinv⟩
  | cons bar rest ih =>
      intro s hb hinv hcl
      rw [List.foldl_cons]
      have hstep := process_bar_invariant s bar hb hinv
        (hcl bar (List.mem_cons_self bar rest))
      exact ih (process_bar s bar) hstep.1 hstep.2
        (fun b hbm => hcl b (List.mem_cons_of_mem bar hbm))

/-- C10: a buy keeps a non-negative balance non-negative (the guard admits
a cost exactly equal to the balance, which then leaves balance 0 and still
records the BUY trade), a sell at a non-negative price only adds
non-negative revenue, and consequently a run started with non-negative
cash on bars with non-negative closes has a non-negative cash balance
after every processed prefix of the simulation. -/
theorem cash_balance_nonneg :
    (∀ (s : BacktestState) (date : ℕ) (price : ℚ) (quantity : ℤ),
        0 ≤ s.current_balance →
        0 ≤ (execute_buy s date price quantity).current_balance) ∧
    (∀ (s : BacktestState) (date : ℕ) (price : ℚ) (quantity : ℤ),
        price * (quantity : ℚ) = s.current_balance →
        (execute_buy s date price quantity).current_balance = 0 ∧
        (execute_buy s date price quantity).trades.length
          = s.trades.length + 1) ∧
    (∀ (s : BacktestState) (date : ℕ) (price : ℚ),
        0 ≤ s.current_balance → 0 ≤ price →
        (∀ pos : Position, s.positions = some pos → 0 ≤ pos.quantity) →
        0 ≤ (execute_sell s date price).current_balance) ∧
    (∀ (initial_balance : ℚ) (bars : List SignalBar),
        0 ≤ initial_balance → (∀ bar ∈ bars, 0 ≤ bar.close) →
        ∀ n : ℕ,
          0 ≤ (execute_trades (init_state initial_balance)
                (bars.take n)).current_balance) := by
  refine ⟨execute_buy_balance_nonneg, ?_, execute_sell_balance_nonneg, ?_⟩
  · intro s date price quantity hEq
    have hguard : ¬ price * (quantity : ℚ) > s.current_balance := by
      rw [hEq]
      exact lt_irrefl _
    constructor
    · unfold execute_buy
      rw [if_neg hguard]
      show s.current_balance - price * (quantity : ℚ) = 0
      rw [hEq, sub_self]
    · unfold execute_buy
      rw [if_neg hguard]
      show (s.trades ++ [_]).length = s.trades.length + 1
      rw [List.length_append, List.length_singleton]
  · intro initial_balance bars h0 hcl n
    rw [execute_trades,
      run_bars_eq_foldl (bars.take n) (init_state initial_balance) 0,
      Nat.sub_zero]
    refine (foldl_process_bar_invariant ((bars.take n).drop 50)
      (init_state initial_balance) h0 ?_ ?_).1
    · intro pos hp
      exact absurd hp (by simp [init_state])
    · intro bar hbm
      exact hcl bar (List.mem_of_mem_take (List.mem_of_mem_drop hbm))

/-! Witnesses: each claim theorem applied at concrete inputs, with every
hypothesis discharged there. -/

/-- Witness for C1 at its (closed) scenario. -/
theorem flat_series_end_to_end_witness :
    (execute_trades (init_state 100000) flat_series_bars).current_balance
      = 90000 :=
  flat_series_end_to_end.2.1

/-- Witness for C2: a concrete sell with a 5-unit position and one with no
position. -/
theorem sell_rule_spec_witness :
    (execute_sell
        { current_balance := 1000
          positions := some { quantity := 5, cost := 400, avg_price := 80 }
          trades := [], equity_curve := [] } 7 90).current_balance
      = 1000 + 90 * ((5 : ℤ) : ℚ) ∧
    (execute_sell
        { current_balance := 1000
          positions := some { quantity := 5, cost := 400, avg_price := 80 }
          trades := [], equity_curve := [] } 7 90).positions = none ∧
    execute_sell
        { current_balance := 1000, positions := none
          trades := [], equity_curve := [] } 7 90
      = { current_balance := 1000, positions := none
          trades := [], equity_curve := [] } := by
  have h1 := (sell_rule_spec
    { current_balance := 1000
      positions := some { quantity := 5, cost := 400, avg_price := 80 }
      trades := [], equity_curve := [] } 7 90).1
    { quantity := 5, cost := 400, avg_price := 80 } rfl
  have h2 := (sell_rule_spec
    { current_balance := 1000, positions := none
      trades := [], equity_curve := [] } 7 90).2 rfl
  exact ⟨h1.1, h1.2.1, h2⟩

/-- Witness for C3: a buy of cost 100 against a balance of 5. -/
theorem insufficient_funds_skip_witness :
    execute_buy (init_state 5) 0 100 1 = init_state 5 ∧
    (process_bar (init_state 5)
        { date := 0, close := 100, buy_signal := true
          sell_signal := false }).equity_curve.length
      = (init_state 5).equity_curve.length + 1 := by
  have h := insufficient_funds_skip (init_state 5)
    { date := 0, close := 100, buy_signal := true, sell_signal := false }
    0 100 1 rfl rfl (by push_cast; norm_num [init_state])
    (by norm_num [init_state])
  exact ⟨h.1, h.2.2.2.2.2⟩

/-- Witness for C4: the report of a one-point curve, whose volatility is
0. -/
theorem sharpe_ratio_guard_witness :
    0 ≤ ({ total_return := 0, annualized_return := 0, volatility_sq := 0
           max_drawdown := 0, win_rate := 0, total_trades := 0
           final_balance := 100000 } : PerformanceReport).volatility_sq ∧
    ((0 : ℚ) < 0 →
      sharpe_ratio
          ({ total_return := 0, annualized_return := 0, volatility_sq := 0
             max_drawdown := 0, win_rate := 0, total_trades := 0
             final_balance := 100000 } : PerformanceReport).annualized_return
          0
        = ({ total_return := 0, annualized_return := 0, volatility_sq := 0
             max_drawdown := 0, win_rate := 0, total_trades := 0
             final_balance := 100000 } :
              PerformanceReport).annualized_return / 0) ∧
    ((0 : ℚ) = 0 →
      sharpe_ratio
          ({ total_return := 0, annualized_return := 0, volatility_sq := 0
             max_drawdown := 0, win_rate := 0, total_trades := 0
             final_balance := 100000 } : PerformanceReport).annualized_return
          0
        = 0) := by
  refine sharpe_ratio_guard 100000
    { current_balance := 100000, positions := none, trades := []
      equity_curve := [{ date := 0, balance := 100000
                         portfolio_value := 100000, equity := 100000 }] }
    { total_return := 0, annualized_return := 0, volatility_sq := 0
      max_drawdown := 0, win_rate := 0, total_trades := 0
      final_balance := 100000 }
    0 ?_ (by norm_num) (le_refl 0)
  norm_num [calculate_performance, pct_change, sample_variance, mean,
    max_drawdown, drawdowns, running_max, running_max_from, list_min,
    win_rate, winning_count, has_pnl_column]

/-- Witness for C5: a single sell with positive P&L, and a single buy. -/
theorem win_rate_denominator_policy_witness :
    win_rate
        [{ date := 1, side := "SELL", quantity := 100, price := 12
           cost := none, revenue := some 1200, pnl := some 200 }]
      = (([({ date := 1, side := "SELL", quantity := 100, price := 12
              cost := none, revenue := some 1200, pnl := some 200 } :
                Trade)].filter (fun t =>
            t.side == "SELL" &&
              match t.pnl with
              | some p => decide (0 < p)
              | none => false)).length : ℚ)
          / (([({ date := 1, side := "SELL", quantity := 100, price := 12
                  cost := none, revenue := some 1200, pnl := some 200 } :
                    Trade)] : List Trade).length : ℚ) ∧
    win_rate
        [{ date := 0, side := "BUY", quantity := 100, price := 10
           cost := some 1000, revenue := none, pnl := none }]
      = 0 := by
  constructor
  · refine (win_rate_denominator_policy _ ?_).1 ⟨_, List.mem_singleton.mpr rfl, rfl⟩
    intro t ht
    rw [List.mem_singleton] at ht
    subst ht
    simp
  · refine (win_rate_denominator_policy _ ?_).2 (by simp) ?_
    · intro t ht
      rw [List.mem_singleton] at ht
      subst ht
      simp
    · intro t ht
      rw [List.mem_singleton] at ht
      subst ht
      simp

/-- Witness for C6 on the rising two-point curve `[1, 2]`. -/
theorem max_drawdown_nonpos_witness :
    max_drawdown [(1 : ℚ), 2] ≤ 0 ∧
    (List.Chain' (fun a b => a ≤ b) [(1 : ℚ), 2] →
      max_drawdown [(1 : ℚ), 2] = 0) := by
  refine max_drawdown_nonpos [(1 : ℚ), 2] (by simp) ?_
  intro e he
  rcases List.mem_cons.mp he with rfl | he2
  · norm_num
  · rw [List.mem_singleton] at he2
    subst he2
    norm_num

/-- Witness for C7: the fresh state has an empty curve; a one-point state
has a computed report. -/
theorem empty_curve_labeled_error_witness :
    calculate_performance 100 (init_state 100)
      = Except.error "No equity curve data" ∧
    ∃ r, calculate_performance 100
        { current_balance := 100, positions := none, trades := []
          equity_curve := [{ date := 0, balance := 100
                             portfolio_value := 100, equity := 100 }] }
      = Except.ok r := by
  exact ⟨(empty_curve_labeled_error 100 (init_state 100)).1 rfl,
    (empty_curve_labeled_error 100 _).2 (by simp)⟩

/-- Witness for C8 on the empty bar list. -/
theorem warmup_skip_equity_cadence_witness :
    ((execute_trades (init_state 100) []).equity_curve).map
        (fun pt => pt.date)
      = (([] : List SignalBar).drop 50).map (fun bar => bar.date) ∧
    (execute_trades (init_state 100) []).equity_curve.length
      = ([] : List SignalBar).length - 50 ∧
    ∀ t ∈ (execute_trades (init_state 100) []).trades,
      t.date ∈ (([] : List SignalBar).drop 50).map (fun bar => bar.date) :=
  warmup_skip_equity_cadence 100 []

/-- Witness for C9 on a bar with both signals set. -/
theorem simultaneous_buy_sell_order_witness :
    process_bar (init_state 100000)
        { date := 0, close := 100, buy_signal := true, sell_signal := true }
      = update_equity_curve
          (execute_sell (execute_buy (init_state 100000) 0 100 100) 0 100)
          0 100 ∧
    ((execute_buy (init_state 100000) 0 100 100).positions.isSome →
      (process_bar (init_state 100000)
        { date := 0, close := 100, buy_signal := true
          sell_signal := true }).positions = none) :=
  simultaneous_buy_sell_order (init_state 100000)
    { date := 0, close := 100, buy_signal := true, sell_signal := true }
    rfl rfl

/-- Witness for C10 at concrete buys, sells and a short run. -/
theorem cash_balance_nonneg_witness :
    0 ≤ (execute_buy (init_state 100) 0 5 2).current_balance ∧
    ((execute_buy (init_state 10) 0 5 2).current_balance = 0 ∧
      (execute_buy (init_state 10) 0 5 2).trades.length
        = (init_state 10).trades.length + 1) ∧
    0 ≤ (execute_sell (init_state 100) 0 5).current_balance ∧
    0 ≤ (execute_trades (init_state 100)
          (([] : List SignalBar).take 3)).current_balance := by
  refine ⟨cash_balance_nonneg.1 (init_state 100) 0 5 2 (by norm_num [init_state]),
    cash_balance_nonneg.2.1 (init_state 10) 0 5 2 (by push_cast; norm_num [init_state]),
    cash_balance_nonneg.2.2.1 (init_state 100) 0 5 (by norm_num [init_state])
      (by norm_num) ?_,
    cash_balance_nonneg.2.2.2 100 [] (by norm_num) (by simp) 3⟩
  intro pos hp
  exact absurd hp (by simp [init_state])

end ATB
